import Mathlib

/-!
Verification of the core of the RDS control-plane MCP server:
the pending-operation confirmation store and the paginated-fetch helper
(`common/utils.py`), the listing resources (`list_instances.py`,
`list_db_logs.py`), and the performance-report tool
(`create_performance_report.py`).

Python dictionaries keyed by strings are embedded as association lists
`List (String × α)` with Python dict semantics: assignment overwrites in
place (keeping insertion order) or appends; deletion removes the entry;
lookup returns the first (unique) binding.
-/

/-- Lookup in a Python-style dict: `d.get(k)`. -/
def dictFind {α : Type} : List (String × α) → String → Option α
  | [], _ => none
  | (k1, v1) :: rest, k => if k1 = k then some v1 else dictFind rest k

/-- Membership test in a Python-style dict: `k in d`. -/
def dictMem {α : Type} (d : List (String × α)) (k : String) : Bool :=
  (dictFind d k).isSome

/-- Assignment `d[k] = v` in a Python dict: overwrite in place if the key is
present (insertion order kept), otherwise append a new binding. -/
def dictSet {α : Type} : List (String × α) → String → α → List (String × α)
  | [], k, v => [(k, v)]
  | (k1, v1) :: rest, k, v =>
    if k1 = k then (k, v) :: rest else (k1, v1) :: dictSet rest k v

/-- Deletion `del d[k]` in a Python dict: remove the (first) binding of `k`. -/
def dictDel {α : Type} : List (String × α) → String → List (String × α)
  | [], _ => []
  | (k1, v1) :: rest, k => if k1 = k then rest else (k1, v1) :: dictDel rest k

/-- The keys of a dict, in insertion order. -/
abbrev dictKeys {α : Type} (d : List (String × α)) : List String :=
  d.map Prod.fst

/-- Reading `page.get(result_key, [])`: the list of raw records stored in a
page under the result key, or the empty list when the key is absent. -/
def pageGet {α : Type} (page : List (String × List α)) (result_key : String) :
    List α :=
  (dictFind page result_key).getD []

/-- Embedding of `handle_paginated_aws_api_call` (common/utils.py, lines
39-66).  The boto3 paginator is the external collaborator; it is embedded as
the finite list of pages it yields, each page a dict from keys to record
lists.  The double `for` loop appending `format_function(item)` for each item
of `page.get(result_key, [])` is embedded as nested folds. -/
def handle_paginated_aws_api_call {α β : Type}
    (pages : List (List (String × List α)))
    (format_function : α → β) (result_key : String) : List β :=
  pages.foldl
    (fun results page =>
      (pageGet page result_key).foldl
        (fun rs item => rs ++ [format_function item]) results)
    []

theorem foldl_append_singleton {α β : Type} (f : α → β) :
    ∀ (l : List α) (acc : List β),
      l.foldl (fun rs item => rs ++ [f item]) acc = acc ++ l.map f := by
  intro l
  induction l with
  | nil => intro acc; simp
  | cons x xs ih => intro acc; simp [ih]

theorem handle_paginated_foldl {α β : Type}
    (format_function : α → β) (result_key : String) :
    ∀ (pages : List (List (String × List α))) (acc : List β),
      pages.foldl
        (fun results page =>
          (pageGet page result_key).foldl
            (fun rs item => rs ++ [format_function item]) results) acc
        = acc ++ (pages.map (fun p => pageGet p result_key)).flatten.map
            format_function := by
  intro pages
  induction pages with
  | nil => intro acc; simp
  | cons p ps ih =>
    intro acc
    rw [List.foldl_cons, foldl_append_singleton, ih]
    simp [List.append_assoc]

/-- C2: for every page stream and every transform, the paginated fetch
consumes every page exactly once to exhaustion and returns exactly the
concatenation, in page order and then within-page record order, of the
transform applied to every record under the result key of every page. -/
theorem paginated_fetch_is_ordered_concat_of_transform {α β : Type}
    (pages : List (List (String × List α)))
    (format_function : α → β) (result_key : String) :
    handle_paginated_aws_api_call pages format_function result_key
      = (pages.map (fun p => pageGet p result_key)).flatten.map format_function := by
  simpa [handle_paginated_aws_api_call] using
    handle_paginated_foldl format_function result_key pages []

theorem pageGet_of_missing {α : Type} (page : List (String × List α))
    (result_key : String) (h : dictFind page result_key = none) :
    pageGet page result_key = [] := by
  simp [pageGet, h]

/-- C6: a page missing the result key contributes exactly zero records to the
output of the paginated fetch (in any position of the page stream), and the
fetch returns the empty sequence, not an error, when the result key is absent
on every page. -/
theorem paginated_fetch_missing_key_contributes_nothing {α β : Type}
    (format_function : α → β) (result_key : String) :
    (∀ (pages1 pages2 : List (List (String × List α)))
        (page : List (String × List α)),
      dictFind page result_key = none →
      handle_paginated_aws_api_call (pages1 ++ page :: pages2)
          format_function result_key
        = handle_paginated_aws_api_call (pages1 ++ pages2)
            format_function result_key)
    ∧ (∀ pages : List (List (String × List α)),
        (∀ p ∈ pages, dictFind p result_key = none) →
        handle_paginated_aws_api_call pages format_function result_key = []) := by
  constructor
  · intro pages1 pages2 page h
    simp [paginated_fetch_is_ordered_concat_of_transform,
      pageGet_of_missing page result_key h]
  · intro pages h
    rw [paginated_fetch_is_ordered_concat_of_transform]
    have : (pages.map (fun p => pageGet p result_key)).flatten = [] := by
      rw [List.flatten_eq_nil_iff]
      intro l hl
      rcases List.mem_map.mp hl with ⟨p, hp, rfl⟩
      exact pageGet_of_missing p result_key (h p hp)
    simp [this]

theorem paginated_fetch_missing_key_witness :
    dictFind ([("Other", [1, 2])] : List (String × List Nat)) "DBInstances" = none
    ∧ (∀ p ∈ ([[("Other", [1, 2])], []] : List (List (String × List Nat))),
        dictFind p "DBInstances" = none)
    ∧ handle_paginated_aws_api_call
        ([[("Other", [1, 2])], [("DBInstances", [3])]] :
          List (List (String × List Nat)))
        (fun n => n + 1) "DBInstances"
      = handle_paginated_aws_api_call [[("DBInstances", [3])]]
          (fun n => n + 1) "DBInstances"
    ∧ handle_paginated_aws_api_call
        ([[("Other", [1, 2])], []] : List (List (String × List Nat)))
        (fun n => n + 1) "DBInstances" = [] := by
  refine ⟨by decide, by decide, ?_, ?_⟩
  · exact (paginated_fetch_missing_key_contributes_nothing
      (fun n => n + 1) "DBInstances").1 [] [[("DBInstances", [3])]]
      [("Other", [1, 2])] (by decide)
  · exact (paginated_fetch_missing_key_contributes_nothing
      (fun n => n + 1) "DBInstances").2 [[("Other", [1, 2])], []] (by decide)

/-!
Pending-operation confirmation store (common/utils.py, lines 315-390).
The module-level dict `_pending_operations` is embedded as an explicit
association-list state threaded through the operations; `time.time()` is
embedded as an explicit `now : Nat` argument (epoch seconds), and the
`uuid.uuid4()` call inside `generate_confirmation_token` as an explicitly
supplied `token` argument (the random source is the only non-determinism).
-/

/-- The parameter map of a pending operation, opaque to the store. -/
abbrev Params := List (String × String)

/-- One stored value of `_pending_operations`: the tuple
`(operation_type, params, expiration_time)`. -/
structure PendingOp where
  operation_type : String
  params : Params
  expiration_time : Nat
deriving DecidableEq

/-- The state of the `_pending_operations` dict: confirmation token ↦ tuple. -/
abbrev Store := List (String × PendingOp)

/-- `EXPIRATION_TIME = 300` seconds (common/utils.py, line 321). -/
def EXPIRATION_TIME : Nat := 300

/-- Embedding of `add_pending_operation` (common/utils.py, lines 333-346):
computes `expiration_time = now + EXPIRATION_TIME`, stores the tuple under
the generated token, and returns the token together with the new state. -/
def add_pending_operation (store : Store) (token : String) (now : Nat)
    (operation_type : String) (params : Params) : String × Store :=
  let expiration_time := now + EXPIRATION_TIME
  (token, dictSet store token ⟨operation_type, params, expiration_time⟩)

/-- Embedding of `cleanup_expired_operations` (common/utils.py, lines
380-389): collect the tokens whose `expiration_time < current_time`
(strict comparison), then delete each of them from the dict. -/
def cleanup_expired_operations (store : Store) (now : Nat) : Store :=
  let expired_tokens :=
    (store.filter (fun p => decide (p.2.expiration_time < now))).map Prod.fst
  expired_tokens.foldl (fun s t => dictDel s t) store

/-- Embedding of `get_pending_operation` (common/utils.py, lines 349-362):
first runs the expiry sweep, then returns `_pending_operations.get(token)`;
the pair carries the post-sweep state of the module dict. -/
def get_pending_operation (store : Store) (now : Nat) (token : String) :
    Option PendingOp × Store :=
  let swept := cleanup_expired_operations store now
  (dictFind swept token, swept)

/-- Embedding of `remove_pending_operation` (common/utils.py, lines
365-377): delete the entry and return `true` when the token is present,
otherwise leave the dict alone and return `false`. -/
def remove_pending_operation (store : Store) (token : String) :
    Bool × Store :=
  if dictMem store token then (true, dictDel store token)
  else (false, store)


theorem dictFind_eq_none_iff {α : Type} (d : List (String × α)) (k : String) :
    dictFind d k = none ↔ k ∉ dictKeys d := by
  induction d with
  | nil => simp [dictFind, dictKeys]
  | cons p rest ih =>
    obtain ⟨k1, v1⟩ := p
    by_cases h : k1 = k
    · subst h
      simp [dictFind, dictKeys]
    · simp [dictFind, dictKeys, h, ih, Ne.symm h]

theorem dictFind_isSome_iff {α : Type} (d : List (String × α)) (k : String) :
    (dictFind d k).isSome = true ↔ k ∈ dictKeys d := by
  constructor
  · intro h
    by_contra hk
    rw [(dictFind_eq_none_iff d k).mpr hk] at h
    simp at h
  · intro h
    rcases hf : dictFind d k with _ | v
    · exact absurd h ((dictFind_eq_none_iff d k).mp hf)
    · simp [hf]

theorem dictDel_sublist {α : Type} (d : List (String × α)) (k : String) :
    List.Sublist (dictDel d k) d := by
  induction d with
  | nil => simp [dictDel]
  | cons p rest ih =>
    obtain ⟨k1, v1⟩ := p
    by_cases h : k1 = k
    · simp [dictDel, h]
    · simpa [dictDel, h] using List.Sublist.cons₂ (k1, v1) ih

theorem dictKeys_sublist_of_sublist {α : Type} {d d' : List (String × α)}
    (h : List.Sublist d' d) : List.Sublist (dictKeys d') (dictKeys d) :=
  List.Sublist.map Prod.fst h

theorem dictFind_dictDel_self {α : Type} (d : List (String × α)) (k : String)
    (hnd : (dictKeys d).Nodup) : dictFind (dictDel d k) k = none := by
  induction d with
  | nil => simp [dictDel, dictFind]
  | cons p rest ih =>
    obtain ⟨k1, v1⟩ := p
    simp only [dictKeys, List.map_cons, List.nodup_cons] at hnd
    by_cases h : k1 = k
    · subst h
      simp only [dictDel, if_pos rfl]
      exact (dictFind_eq_none_iff rest k1).mpr hnd.1
    · simp [dictDel, h, dictFind, ih hnd.2]

theorem dictFind_dictDel_ne {α : Type} (d : List (String × α))
    (k k' : String) (h : k' ≠ k) :
    dictFind (dictDel d k) k' = dictFind d k' := by
  induction d with
  | nil => simp [dictDel]
  | cons p rest ih =>
    obtain ⟨k1, v1⟩ := p
    by_cases h1 : k1 = k
    · subst h1
      simp [dictDel, dictFind, Ne.symm h]
    · by_cases h2 : k1 = k'
      · subst h2
        simp [dictDel, dictFind, h1]
      · simp [dictDel, dictFind, h1, h2, ih]

theorem dictSet_of_absent {α : Type} (d : List (String × α)) (k : String)
    (v : α) (h : dictFind d k = none) : dictSet d k v = d ++ [(k, v)] := by
  induction d with
  | nil => simp [dictSet]
  | cons p rest ih =>
    obtain ⟨k1, v1⟩ := p
    by_cases h1 : k1 = k
    · subst h1
      simp [dictFind] at h
    · simp only [dictFind, if_neg h1] at h
      simp [dictSet, h1, ih h]

theorem dictFind_dictSet_self {α : Type} (d : List (String × α)) (k : String)
    (v : α) : dictFind (dictSet d k v) k = some v := by
  induction d with
  | nil => simp [dictSet, dictFind]
  | cons p rest ih =>
    obtain ⟨k1, v1⟩ := p
    by_cases h1 : k1 = k
    · simp [dictSet, h1, dictFind]
    · simp [dictSet, h1, dictFind, ih]

theorem dictFind_dictSet_ne {α : Type} (d : List (String × α))
    (k k' : String) (v : α) (h : k' ≠ k) :
    dictFind (dictSet d k v) k' = dictFind d k' := by
  induction d with
  | nil => simp [dictSet, dictFind, Ne.symm h]
  | cons p rest ih =>
    obtain ⟨k1, v1⟩ := p
    by_cases h1 : k1 = k
    · subst h1
      simp [dictSet, dictFind, Ne.symm h]
    · by_cases h2 : k1 = k'
      · subst h2
        simp [dictSet, dictFind, h1]
      · simp [dictSet, dictFind, h1, h2, ih]

theorem dictKeys_dictSet_of_mem {α : Type} (d : List (String × α))
    (k : String) (v : α) (h : k ∈ dictKeys d) :
    dictKeys (dictSet d k v) = dictKeys d := by
  induction d with
  | nil => simp [dictKeys] at h
  | cons p rest ih =>
    obtain ⟨k1, v1⟩ := p
    by_cases h1 : k1 = k
    · subst h1
      simp [dictSet, dictKeys]
    · simp only [dictKeys, List.map_cons, List.mem_cons] at h
      rcases h with h | h
      · exact absurd h.symm h1
      · have ih' : List.map Prod.fst (dictSet rest k v)
            = List.map Prod.fst rest := ih h
        simp [dictSet, h1, dictKeys, ih']

theorem dictKeys_nodup_dictSet {α : Type} (d : List (String × α))
    (k : String) (v : α) (hnd : (dictKeys d).Nodup) :
    (dictKeys (dictSet d k v)).Nodup := by
  by_cases h : k ∈ dictKeys d
  · rw [dictKeys_dictSet_of_mem d k v h]
    exact hnd
  · rw [dictSet_of_absent d k v ((dictFind_eq_none_iff d k).mpr h)]
    simp only [dictKeys, List.map_append, List.map_cons, List.map_nil]
    rw [List.nodup_append]
    refine ⟨hnd, List.nodup_singleton k, ?_⟩
    intro a ha hb
    rw [List.mem_singleton] at hb
    exact h (hb ▸ ha)

theorem foldl_dictDel_sublist {α : Type} :
    ∀ (ts : List String) (d : List (String × α)),
      List.Sublist (ts.foldl (fun s t => dictDel s t) d) d := by
  intro ts
  induction ts with
  | nil => intro d; simp
  | cons t ts ih =>
    intro d
    exact List.Sublist.trans (ih (dictDel d t)) (dictDel_sublist d t)

theorem cleanup_sublist (store : Store) (now : Nat) :
    List.Sublist (cleanup_expired_operations store now) store :=
  foldl_dictDel_sublist _ store

theorem cleanup_keys_nodup (store : Store) (now : Nat)
    (hnd : (dictKeys store).Nodup) :
    (dictKeys (cleanup_expired_operations store now)).Nodup :=
  List.Nodup.sublist
    (dictKeys_sublist_of_sublist (cleanup_sublist store now)) hnd

theorem foldl_dictDel_cons_of_ne {α : Type} :
    ∀ (ts : List String) (k : String) (v : α) (d : List (String × α)),
      (∀ t ∈ ts, t ≠ k) →
      ts.foldl (fun s t => dictDel s t) ((k, v) :: d)
        = (k, v) :: ts.foldl (fun s t => dictDel s t) d := by
  intro ts
  induction ts with
  | nil => intro k v d _; simp
  | cons t ts ih =>
    intro k v d h
    have ht : t ≠ k := h t (by simp)
    have hrest : ∀ u ∈ ts, u ≠ k := fun u hu => h u (by simp [hu])
    have hk : ¬(k = t) := fun hc => ht hc.symm
    simp only [List.foldl_cons]
    rw [show dictDel ((k, v) :: d) t = (k, v) :: dictDel d t by
      simp [dictDel, hk]]
    exact ih k v (dictDel d t) hrest

theorem mem_keys_of_mem_filter_keys {α : Type} (d : List (String × α))
    (q : String × α → Bool) (t : String)
    (h : t ∈ dictKeys (d.filter q)) : t ∈ dictKeys d :=
  (dictKeys_sublist_of_sublist (List.filter_sublist d)).mem h

theorem cleanup_eq_filter (store : Store) (now : Nat)
    (hnd : (dictKeys store).Nodup) :
    cleanup_expired_operations store now
      = store.filter (fun p => !decide (p.2.expiration_time < now)) := by
  induction store with
  | nil => rfl
  | cons p rest ih =>
    obtain ⟨k, v⟩ := p
    simp only [dictKeys, List.map_cons, List.nodup_cons] at hnd
    have hknr : k ∉ dictKeys rest := hnd.1
    have ihr := ih hnd.2
    by_cases hexp : v.expiration_time < now
    · have hfe : ((k, v) :: rest).filter
          (fun p => decide (p.2.expiration_time < now))
          = (k, v) :: rest.filter (fun p => decide (p.2.expiration_time < now)) := by
        simp [List.filter_cons, hexp]
      unfold cleanup_expired_operations
      rw [hfe]
      simp only [List.map_cons, List.foldl_cons]
      rw [show dictDel ((k, v) :: rest) k = rest by simp [dictDel]]
      rw [show (List.map Prod.fst
          (rest.filter fun p => decide (p.2.expiration_time < now))).foldl
            (fun s t => dictDel s t) rest
          = cleanup_expired_operations rest now from rfl]
      rw [ihr]
      simp [List.filter_cons, hexp]
    · have hfe : ((k, v) :: rest).filter
          (fun p => decide (p.2.expiration_time < now))
          = rest.filter (fun p => decide (p.2.expiration_time < now)) := by
        simp [List.filter_cons, hexp]
      unfold cleanup_expired_operations
      rw [hfe]
      have hne : ∀ t ∈ List.map Prod.fst
          (rest.filter fun p => decide (p.2.expiration_time < now)), t ≠ k := by
        intro t ht hc
        exact hknr (hc ▸ mem_keys_of_mem_filter_keys rest _ t ht)
      rw [foldl_dictDel_cons_of_ne _ k v rest hne]
      rw [show (List.map Prod.fst
          (rest.filter fun p => decide (p.2.expiration_time < now))).foldl
            (fun s t => dictDel s t) rest
          = cleanup_expired_operations rest now from rfl]
      rw [ihr]
      simp [List.filter_cons, hexp]

theorem dictFind_filter {α : Type} (d : List (String × α))
    (q : String × α → Bool) (t : String) (hnd : (dictKeys d).Nodup) :
    dictFind (d.filter q) t
      = (dictFind d t).bind (fun v => if q (t, v) then some v else none) := by
  induction d with
  | nil => simp [dictFind]
  | cons p rest ih =>
    obtain ⟨k, w⟩ := p
    simp only [dictKeys, List.map_cons, List.nodup_cons] at hnd
    have ihr := ih hnd.2
    by_cases hk : k = t
    · subst hk
      by_cases hq : q (k, w)
      · simp [List.filter_cons, hq, dictFind]
      · have : dictFind (rest.filter q) k = none := by
          rw [dictFind_eq_none_iff]
          intro hmem
          exact hnd.1 (mem_keys_of_mem_filter_keys rest q k hmem)
        simp [List.filter_cons, hq, dictFind, this]
    · by_cases hq : q (k, w)
      · simp [List.filter_cons, hq, dictFind, hk, ihr]
      · simp [List.filter_cons, hq, dictFind, hk, ihr]

theorem cleanup_find (store : Store) (now : Nat) (token : String)
    (hnd : (dictKeys store).Nodup) :
    dictFind (cleanup_expired_operations store now) token
      = (dictFind store token).bind
          (fun r => if r.expiration_time < now then none else some r) := by
  rw [cleanup_eq_filter store now hnd, dictFind_filter store _ token hnd]
  rcases dictFind store token with _ | r
  · rfl
  · by_cases h : r.expiration_time < now
    · simp [h]
    · simp [h]

theorem get_find (store : Store) (now : Nat) (token : String)
    (hnd : (dictKeys store).Nodup) :
    (get_pending_operation store now token).1
      = (dictFind store token).bind
          (fun r => if r.expiration_time < now then none else some r) :=
  cleanup_find store now token hnd

/-- C1: `get_pending_operation` returns the stored record exactly when a
record for the token is stored and unexpired (`expiration_time < now` fails)
at lookup time — so it never returns an expired record — and a token issued
at time `T` is found at any time strictly before `T + 300` and reported
absent (`none`) at any time strictly after `T + 300`. -/
theorem lookup_finds_iff_stored_and_unexpired (store : Store)
    (hnd : (dictKeys store).Nodup) :
    (∀ (now : Nat) (token : String) (r : PendingOp),
        (get_pending_operation store now token).1 = some r
          ↔ dictFind store token = some r ∧ ¬r.expiration_time < now)
    ∧ (∀ (token : String) (T : Nat) (operation_type : String)
        (params : Params),
        dictFind store token = none →
        (∀ t : Nat, t < T + 300 →
          (get_pending_operation
            (add_pending_operation store token T operation_type params).2
            t token).1
            = some ⟨operation_type, params, T + 300⟩)
        ∧ (∀ t : Nat, T + 300 < t →
          (get_pending_operation
            (add_pending_operation store token T operation_type params).2
            t token).1 = none)) := by
  have char : ∀ (now : Nat) (token : String) (r : PendingOp),
      (get_pending_operation store now token).1 = some r
        ↔ dictFind store token = some r ∧ ¬r.expiration_time < now := by
    intro now token r
    rw [get_find store now token hnd]
    rcases h : dictFind store token with _ | r'
    · simp
    · simp only [Option.some_bind]
      by_cases hexp : r'.expiration_time < now
      · rw [if_pos hexp]
        constructor
        · intro hc; cases hc
        · rintro ⟨hr, hn⟩
          injection hr with hr
          exact absurd hexp (hr ▸ hn)
      · rw [if_neg hexp]
        constructor
        · intro hc
          injection hc with hc
          subst hc
          exact ⟨rfl, hexp⟩
        · rintro ⟨hr, _⟩
          injection hr with hr
          rw [hr]
  refine ⟨char, ?_⟩
  intro token T operation_type params hfresh
  have hstep : (add_pending_operation store token T operation_type params).2
      = dictSet store token ⟨operation_type, params, T + 300⟩ := rfl
  have hnd1 : (dictKeys
      (dictSet store token
        (⟨operation_type, params, T + 300⟩ : PendingOp))).Nodup :=
    dictKeys_nodup_dictSet store token _ hnd
  have hself : dictFind
      (dictSet store token (⟨operation_type, params, T + 300⟩ : PendingOp))
      token = some ⟨operation_type, params, T + 300⟩ :=
    dictFind_dictSet_self store token _
  constructor
  · intro t ht
    rw [hstep, get_find _ t token hnd1, hself]
    simp only [Option.some_bind]
    rw [if_neg (by simpa using Nat.not_lt.mpr (Nat.le_of_lt ht))]
  · intro t ht
    rw [hstep, get_find _ t token hnd1, hself]
    simp only [Option.some_bind]
    rw [if_pos (by simpa using ht)]

theorem lookup_finds_witness :
    (dictKeys ([] : Store)).Nodup
    ∧ dictFind ([] : Store) "token-1" = none
    ∧ (get_pending_operation
        (add_pending_operation [] "token-1" 1000 "delete_db_cluster"
          [("db_cluster_identifier", "c1")]).2
        1299 "token-1").1
      = some ⟨"delete_db_cluster", [("db_cluster_identifier", "c1")], 1300⟩
    ∧ (get_pending_operation
        (add_pending_operation [] "token-1" 1000 "delete_db_cluster"
          [("db_cluster_identifier", "c1")]).2
        1301 "token-1").1 = none := by
  refine ⟨by decide, by decide, ?_, ?_⟩
  · exact ((lookup_finds_iff_stored_and_unexpired [] (by decide)).2
      "token-1" 1000 "delete_db_cluster" [("db_cluster_identifier", "c1")]
      (by decide)).1 1299 (by decide)
  · exact ((lookup_finds_iff_stored_and_unexpired [] (by decide)).2
      "token-1" 1000 "delete_db_cluster" [("db_cluster_identifier", "c1")]
      (by decide)).2 1301 (by decide)

/-- C3: the expiry comparison is strict: a stored record whose
`expiration_time` equals the current time is not removed by the sweep and is
still returned by a lookup at exactly the expiry instant; a record is deleted
by the sweep only when its `expiration_time` is strictly less than the
current time. -/
theorem expiry_sweep_strict_comparison (store : Store) (now : Nat)
    (token : String) (r : PendingOp) (hnd : (dictKeys store).Nodup)
    (hfind : dictFind store token = some r) :
    (r.expiration_time = now →
      dictFind (cleanup_expired_operations store now) token = some r
      ∧ (get_pending_operation store now token).1 = some r)
    ∧ (¬r.expiration_time < now →
      dictFind (cleanup_expired_operations store now) token = some r)
    ∧ (dictFind (cleanup_expired_operations store now) token = none →
      r.expiration_time < now) := by
  have hc : dictFind (cleanup_expired_operations store now) token
      = if r.expiration_time < now then none else some r := by
    rw [cleanup_find store now token hnd, hfind, Option.some_bind]
  refine ⟨?_, ?_, ?_⟩
  · intro heq
    have hnl : ¬r.expiration_time < now := by
      rw [heq]
      exact Nat.lt_irrefl now
    refine ⟨by rw [hc, if_neg hnl], ?_⟩
    show dictFind (cleanup_expired_operations store now) token = some r
    rw [hc, if_neg hnl]
  · intro hnl
    rw [hc, if_neg hnl]
  · intro hnone
    by_contra hnl
    rw [hc, if_neg hnl] at hnone
    cases hnone

theorem expiry_sweep_strict_witness :
    (dictKeys ([("token-2",
        (⟨"stop_db_instance", [("db_instance_identifier", "i1")], 200⟩ :
          PendingOp))] : Store)).Nodup
    ∧ dictFind ([("token-2",
        (⟨"stop_db_instance", [("db_instance_identifier", "i1")], 200⟩ :
          PendingOp))] : Store) "token-2"
      = some ⟨"stop_db_instance", [("db_instance_identifier", "i1")], 200⟩
    ∧ (200 : Nat) = 200
    ∧ (get_pending_operation
        [("token-2",
          ⟨"stop_db_instance", [("db_instance_identifier", "i1")], 200⟩)]
        200 "token-2").1
      = some ⟨"stop_db_instance", [("db_instance_identifier", "i1")], 200⟩ := by
  refine ⟨by decide, by decide, rfl, ?_⟩
  exact ((expiry_sweep_strict_comparison
    [("token-2", ⟨"stop_db_instance", [("db_instance_identifier", "i1")], 200⟩)]
    200 "token-2"
    ⟨"stop_db_instance", [("db_instance_identifier", "i1")], 200⟩
    (by decide) (by decide)).1 rfl).2

/-- C4: `add_pending_operation` is total (no error path), computes
`expiration_time = now + 300`, stores the tuple under the freshly generated
token, returns that token, and — the generated token being fresh — appends
exactly one entry while every previously stored record stays unchanged. -/
theorem issue_appends_one_fresh_record (store : Store) (token : String)
    (now : Nat) (operation_type : String) (params : Params)
    (hfresh : dictFind store token = none) :
    (add_pending_operation store token now operation_type params).1 = token
    ∧ (add_pending_operation store token now operation_type params).2
        = store ++ [(token, ⟨operation_type, params, now + 300⟩)]
    ∧ ((add_pending_operation store token now operation_type params).2).length
        = store.length + 1
    ∧ dictFind (add_pending_operation store token now operation_type params).2
        token = some ⟨operation_type, params, now + 300⟩
    ∧ ∀ k, k ≠ token →
        dictFind (add_pending_operation store token now operation_type
          params).2 k = dictFind store k := by
  have hstep : (add_pending_operation store token now operation_type params).2
      = dictSet store token ⟨operation_type, params, now + 300⟩ := rfl
  refine ⟨rfl, ?_, ?_, ?_, ?_⟩
  · rw [hstep, dictSet_of_absent store token _ hfresh]
  · rw [hstep, dictSet_of_absent store token _ hfresh]
    simp
  · rw [hstep]
    exact dictFind_dictSet_self store token _
  · intro k hk
    rw [hstep]
    exact dictFind_dictSet_ne store token k _ hk

theorem issue_appends_witness :
    dictFind ([("token-a",
        (⟨"reboot_db_instance", [], 50⟩ : PendingOp))] : Store) "token-b" = none
    ∧ (add_pending_operation
        [("token-a", ⟨"reboot_db_instance", [], 50⟩)] "token-b" 700
        "failover_db_cluster" [("db_cluster_identifier", "c2")]).1 = "token-b"
    ∧ ((add_pending_operation
        [("token-a", ⟨"reboot_db_instance", [], 50⟩)] "token-b" 700
        "failover_db_cluster" [("db_cluster_identifier", "c2")]).2).length
      = ([("token-a",
          (⟨"reboot_db_instance", [], 50⟩ : PendingOp))] : Store).length + 1
    ∧ dictFind (add_pending_operation
        [("token-a", ⟨"reboot_db_instance", [], 50⟩)] "token-b" 700
        "failover_db_cluster" [("db_cluster_identifier", "c2")]).2 "token-b"
      = some ⟨"failover_db_cluster", [("db_cluster_identifier", "c2")], 1000⟩
    ∧ dictFind (add_pending_operation
        [("token-a", ⟨"reboot_db_instance", [], 50⟩)] "token-b" 700
        "failover_db_cluster" [("db_cluster_identifier", "c2")]).2 "token-a"
      = dictFind ([("token-a",
          (⟨"reboot_db_instance", [], 50⟩ : PendingOp))] : Store) "token-a" := by
  have h := issue_appends_one_fresh_record
    [("token-a", ⟨"reboot_db_instance", [], 50⟩)] "token-b" 700
    "failover_db_cluster" [("db_cluster_identifier", "c2")] (by decide)
  exact ⟨by decide, h.1, h.2.2.1, h.2.2.2.1, h.2.2.2.2 "token-a" (by decide)⟩

/-- C5: `remove_pending_operation` returns `true` exactly when the token is
present (a deletion occurred), leaves the dict unchanged and returns `false`
on an absent token, removes only the record of the given token, and calling
it twice in a row on a stored token returns `true` then `false`. -/
theorem remove_true_iff_present_and_idempotent (store : Store)
    (token : String) :
    ((remove_pending_operation store token).1 = true
        ↔ (dictFind store token).isSome = true)
    ∧ (dictFind store token = none →
        remove_pending_operation store token = (false, store))
    ∧ (∀ k, k ≠ token →
        dictFind (remove_pending_operation store token).2 k
          = dictFind store k)
    ∧ ((dictKeys store).Nodup →
        dictFind (remove_pending_operation store token).2 token = none)
    ∧ ((dictKeys store).Nodup → (dictFind store token).isSome = true →
        (remove_pending_operation store token).1 = true
        ∧ (remove_pending_operation
            (remove_pending_operation store token).2 token).1 = false) := by
  by_cases hmem : dictMem store token
  · have hstep : remove_pending_operation store token
        = (true, dictDel store token) := by
      simp [remove_pending_operation, hmem]
    refine ⟨?_, ?_, ?_, ?_, ?_⟩
    · rw [hstep]
      simpa [dictMem] using hmem
    · intro hnone
      rw [dictMem, hnone] at hmem
      cases hmem
    · intro k hk
      rw [hstep]
      exact dictFind_dictDel_ne store token k hk
    · intro hnd
      rw [hstep]
      exact dictFind_dictDel_self store token hnd
    · intro hnd _
      refine ⟨by rw [hstep], ?_⟩
      rw [hstep]
      show (remove_pending_operation (dictDel store token) token).1 = false
      have hmem2 : dictMem (dictDel store token) token = false := by
        rw [dictMem, dictFind_dictDel_self store token hnd]
        rfl
      simp [remove_pending_operation, hmem2]
  · have hstep : remove_pending_operation store token = (false, store) := by
      simp [remove_pending_operation, hmem]
    have hfn : (dictFind store token).isSome = false := by
      simpa [dictMem] using hmem
    refine ⟨?_, ?_, ?_, ?_, ?_⟩
    · rw [hstep]
      simp [hfn]
    · intro _
      exact hstep
    · intro k _
      rw [hstep]
    · intro _
      rw [hstep]
      simpa using hfn
    · intro _ hsome
      rw [hsome] at hfn
      cases hfn

theorem remove_idempotent_witness :
    (dictKeys ([("t3", (⟨"delete_db_instance", [], 999⟩ : PendingOp))] :
        Store)).Nodup
    ∧ (dictFind ([("t3", (⟨"delete_db_instance", [], 999⟩ : PendingOp))] :
        Store) "t3").isSome = true
    ∧ (remove_pending_operation
        [("t3", ⟨"delete_db_instance", [], 999⟩)] "t3").1 = true
    ∧ (remove_pending_operation
        (remove_pending_operation
          [("t3", ⟨"delete_db_instance", [], 999⟩)] "t3").2 "t3").1 = false
    ∧ dictFind ([] : Store) "t9" = none
    ∧ remove_pending_operation ([] : Store) "t9" = (false, []) := by
  have h := remove_true_iff_present_and_idempotent
    [("t3", ⟨"delete_db_instance", [], 999⟩)] "t3"
  have h2 := remove_true_iff_present_and_idempotent ([] : Store) "t9"
  refine ⟨by decide, by decide, ?_, ?_, by decide, ?_⟩
  · exact (h.2.2.2.2 (by decide) (by decide)).1
  · exact (h.2.2.2.2 (by decide) (by decide)).2
  · exact h2.2.1 (by decide)

/-- C7: a successful lookup does not mutate the found record: the record is
still stored in the post-lookup state, a second lookup before its expiry
returns the same record again, and only an explicit
`remove_pending_operation` in between makes a later lookup return `none`. -/
theorem lookup_does_not_consume (store : Store) (now now' : Nat)
    (token : String) (r : PendingOp) (hnd : (dictKeys store).Nodup)
    (hfound : (get_pending_operation store now token).1 = some r) :
    dictFind (get_pending_operation store now token).2 token = some r
    ∧ (¬r.expiration_time < now' →
        (get_pending_operation
          (get_pending_operation store now token).2 now' token).1 = some r)
    ∧ (get_pending_operation
        (remove_pending_operation
          (get_pending_operation store now token).2 token).2 now' token).1
      = none := by
  have hs1 : (get_pending_operation store now token).2
      = cleanup_expired_operations store now := rfl
  have hf1 : dictFind (cleanup_expired_operations store now) token
      = some r := hfound
  have hnd1 : (dictKeys (cleanup_expired_operations store now)).Nodup :=
    cleanup_keys_nodup store now hnd
  refine ⟨hf1, ?_, ?_⟩
  · intro hne
    rw [hs1, get_find _ now' token hnd1, hf1, Option.some_bind, if_neg hne]
  · have hmem : dictMem (cleanup_expired_operations store now) token
        = true := by
      rw [dictMem, hf1]
      rfl
    have hrem : (remove_pending_operation
          (cleanup_expired_operations store now) token).2
        = dictDel (cleanup_expired_operations store now) token := by
      simp [remove_pending_operation, hmem]
    have hnd2 : (dictKeys
        (dictDel (cleanup_expired_operations store now) token)).Nodup :=
      List.Nodup.sublist
        (dictKeys_sublist_of_sublist (dictDel_sublist _ token)) hnd1
    rw [hs1, hrem, get_find _ now' token hnd2,
      dictFind_dictDel_self _ token hnd1, Option.none_bind]

theorem lookup_does_not_consume_witness :
    (dictKeys ([("t7", (⟨"modify_db_instance", [], 1000⟩ : PendingOp))] :
        Store)).Nodup
    ∧ (get_pending_operation
        [("t7", ⟨"modify_db_instance", [], 1000⟩)] 900 "t7").1
      = some ⟨"modify_db_instance", [], 1000⟩
    ∧ ¬(⟨"modify_db_instance", [], 1000⟩ :
        PendingOp).expiration_time < 950
    ∧ (get_pending_operation
        (get_pending_operation
          [("t7", ⟨"modify_db_instance", [], 1000⟩)] 900 "t7").2
        950 "t7").1 = some ⟨"modify_db_instance", [], 1000⟩
    ∧ (get_pending_operation
        (remove_pending_operation
          (get_pending_operation
            [("t7", ⟨"modify_db_instance", [], 1000⟩)] 900 "t7").2 "t7").2
        950 "t7").1 = none := by
  have h := lookup_does_not_consume
    [("t7", ⟨"modify_db_instance", [], 1000⟩)] 900 950 "t7"
    ⟨"modify_db_instance", [], 1000⟩ (by decide) (by decide)
  exact ⟨by decide, by decide, by decide, h.2.1 (by decide), h.2.2⟩

/-- One call against the pending-operation store: an
`add_pending_operation` (with the token its generator produced and the
clock reading), a `get_pending_operation`, or a
`remove_pending_operation`. -/
inductive Cmd where
  | issue (token : String) (now : Nat) (operation_type : String)
      (params : Params)
  | lookup (token : String) (now : Nat)
  | remove (token : String)

/-- The effect of one store call on the `_pending_operations` dict. -/
def stepStore (store : Store) : Cmd → Store
  | Cmd.issue token now operation_type params =>
      (add_pending_operation store token now operation_type params).2
  | Cmd.lookup token now => (get_pending_operation store now token).2
  | Cmd.remove token => (remove_pending_operation store token).2

/-- The dict state after a sequence of store calls. -/
def runStore (store : Store) (cmds : List Cmd) : Store :=
  cmds.foldl stepStore store

/-- The token generator yields fresh values: along the run, every issued
token is distinct from every token currently in the registry. -/
def freshTokens (store : Store) : List Cmd → Bool
  | [] => true
  | c :: cs =>
    (match c with
     | Cmd.issue token _ _ _ => !dictMem store token
     | _ => true) && freshTokens (stepStore store c) cs

/-- The tokens returned by the issue calls of a command sequence, in order. -/
def issuedTokens : List Cmd → List String
  | [] => []
  | Cmd.issue token _ _ _ :: cs => token :: issuedTokens cs
  | Cmd.lookup _ _ :: cs => issuedTokens cs
  | Cmd.remove _ :: cs => issuedTokens cs

/-- Whether a store call is an issue (`add_pending_operation`) call. -/
def isIssue : Cmd → Bool
  | Cmd.issue _ _ _ _ => true
  | _ => false

theorem mem_dictKeys_dictSet {α : Type} (d : List (String × α))
    (k k' : String) (v : α) (h : k' ∈ dictKeys d) :
    k' ∈ dictKeys (dictSet d k v) := by
  by_cases hm : k ∈ dictKeys d
  · rw [dictKeys_dictSet_of_mem d k v hm]
    exact h
  · rw [dictSet_of_absent d k v ((dictFind_eq_none_iff d k).mpr hm)]
    simp only [dictKeys, List.map_append, List.mem_append]
    exact Or.inl h

theorem stepStore_nodup (store : Store) (c : Cmd)
    (hnd : (dictKeys store).Nodup) : (dictKeys (stepStore store c)).Nodup := by
  cases c with
  | issue token now operation_type params =>
    exact dictKeys_nodup_dictSet store token _ hnd
  | lookup token now => exact cleanup_keys_nodup store now hnd
  | remove token =>
    by_cases hm : dictMem store token
    · have : stepStore store (Cmd.remove token) = dictDel store token := by
        simp [stepStore, remove_pending_operation, hm]
      rw [this]
      exact List.Nodup.sublist
        (dictKeys_sublist_of_sublist (dictDel_sublist store token)) hnd
    · have : stepStore store (Cmd.remove token) = store := by
        simp [stepStore, remove_pending_operation, hm]
      rw [this]
      exact hnd

theorem runStore_nodup :
    ∀ (cmds : List Cmd) (store : Store), (dictKeys store).Nodup →
      (dictKeys (runStore store cmds)).Nodup := by
  intro cmds
  induction cmds with
  | nil => intro store hnd; exact hnd
  | cons c cs ih =>
    intro store hnd
    exact ih (stepStore store c) (stepStore_nodup store c hnd)

theorem issued_not_mem_of_all_issue :
    ∀ (cmds : List Cmd) (store : Store) (k : String),
      (∀ c ∈ cmds, isIssue c = true) → freshTokens store cmds = true →
      k ∈ dictKeys store → k ∉ issuedTokens cmds := by
  intro cmds
  induction cmds with
  | nil => intro store k _ _ _; simp [issuedTokens]
  | cons c cs ih =>
    intro store k hiss hfresh hk
    cases c with
    | issue token now operation_type params =>
      simp only [freshTokens, Bool.and_eq_true] at hfresh
      have hmemf : dictMem store token = false := by
        have h1 := hfresh.1
        rwa [Bool.not_eq_true'] at h1
      have htk : token ≠ k := by
        intro hc
        subst hc
        have h2 : (dictFind store token).isSome = true :=
          (dictFind_isSome_iff store token).mpr hk
        rw [dictMem, h2] at hmemf
        cases hmemf
      simp only [issuedTokens, List.mem_cons]
      rintro (rfl | hmem)
      · exact htk rfl
      · have hk1 : k ∈ dictKeys (stepStore store
            (Cmd.issue token now operation_type params)) :=
          mem_dictKeys_dictSet store token k _ hk
        exact ih (stepStore store (Cmd.issue token now operation_type params))
          k (fun c hc => hiss c (by simp [hc])) hfresh.2 hk1 hmem
    | lookup token now =>
      have := hiss (Cmd.lookup token now) (by simp)
      simp [isIssue] at this
    | remove token =>
      have := hiss (Cmd.remove token) (by simp)
      simp [isIssue] at this

theorem issued_nodup_of_all_issue :
    ∀ (cmds : List Cmd) (store : Store),
      (∀ c ∈ cmds, isIssue c = true) → freshTokens store cmds = true →
      (issuedTokens cmds).Nodup := by
  intro cmds
  induction cmds with
  | nil => intro store _ _; simp [issuedTokens]
  | cons c cs ih =>
    intro store hiss hfresh
    cases c with
    | issue token now operation_type params =>
      simp only [freshTokens, Bool.and_eq_true] at hfresh
      have hmemkeys : token ∈ dictKeys (stepStore store
          (Cmd.issue token now operation_type params)) := by
        have : dictFind (stepStore store
            (Cmd.issue token now operation_type params)) token
            = some ⟨operation_type, params, now + EXPIRATION_TIME⟩ :=
          dictFind_dictSet_self store token _
        exact (dictFind_isSome_iff _ token).mp (by rw [this]; rfl)
      simp only [issuedTokens, List.nodup_cons]
      refine ⟨?_, ih _ (fun c hc => hiss c (by simp [hc])) hfresh.2⟩
      exact issued_not_mem_of_all_issue cs
        (stepStore store (Cmd.issue token now operation_type params)) token
        (fun c hc => hiss c (by simp [hc])) hfresh.2 hmemkeys
    | lookup token now =>
      have := hiss (Cmd.lookup token now) (by simp)
      simp [isIssue] at this
    | remove token =>
      have := hiss (Cmd.remove token) (by simp)
      simp [isIssue] at this

/-- C8: assuming the token generator yields values distinct from every token
currently in the registry, the registry keys stay duplicate-free after any
sequence of issue, lookup and remove calls, and a run of N issue calls
yields N pairwise distinct tokens. -/
theorem tokens_unique_under_fresh_generator :
    (∀ (store : Store) (cmds : List Cmd), (dictKeys store).Nodup →
      freshTokens store cmds = true →
      (dictKeys (runStore store cmds)).Nodup)
    ∧ (∀ (store : Store) (cmds : List Cmd),
      (∀ c ∈ cmds, isIssue c = true) → freshTokens store cmds = true →
      (issuedTokens cmds).Nodup ∧ (issuedTokens cmds).length
        = cmds.length) := by
  constructor
  · intro store cmds hnd _
    exact runStore_nodup cmds store hnd
  · intro store cmds hiss hfresh
    refine ⟨issued_nodup_of_all_issue cmds store hiss hfresh, ?_⟩
    clear hfresh
    induction cmds with
    | nil => rfl
    | cons c cs ih =>
      cases c with
      | issue token now operation_type params =>
        simp only [issuedTokens, List.length_cons]
        rw [ih (fun c hc => hiss c (by simp [hc]))]
      | lookup token now =>
        have := hiss (Cmd.lookup token now) (by simp)
        simp [isIssue] at this
      | remove token =>
        have := hiss (Cmd.remove token) (by simp)
        simp [isIssue] at this

theorem tokens_unique_witness :
    (dictKeys ([] : Store)).Nodup
    ∧ freshTokens ([] : Store)
        [Cmd.issue "u1" 0 "delete_db_cluster" [],
         Cmd.lookup "u1" 10,
         Cmd.remove "u1",
         Cmd.issue "u1" 20 "stop_db_instance" [],
         Cmd.issue "u2" 30 "reboot_db_instance" []] = true
    ∧ (dictKeys (runStore ([] : Store)
        [Cmd.issue "u1" 0 "delete_db_cluster" [],
         Cmd.lookup "u1" 10,
         Cmd.remove "u1",
         Cmd.issue "u1" 20 "stop_db_instance" [],
         Cmd.issue "u2" 30 "reboot_db_instance" []])).Nodup
    ∧ (∀ c ∈ [Cmd.issue "n1" 0 "op" [], Cmd.issue "n2" 1 "op" [],
          Cmd.issue "n3" 2 "op" []], isIssue c = true)
    ∧ freshTokens ([] : Store)
        [Cmd.issue "n1" 0 "op" [], Cmd.issue "n2" 1 "op" [],
         Cmd.issue "n3" 2 "op" []] = true
    ∧ (issuedTokens [Cmd.issue "n1" 0 "op" [], Cmd.issue "n2" 1 "op" [],
        Cmd.issue "n3" 2 "op" []]).Nodup
    ∧ (issuedTokens [Cmd.issue "n1" 0 "op" [], Cmd.issue "n2" 1 "op" [],
        Cmd.issue "n3" 2 "op" []]).length = 3 := by
  refine ⟨by decide, by decide, ?_, by decide, by decide, ?_, ?_⟩
  · exact tokens_unique_under_fresh_generator.1 []
      [Cmd.issue "u1" 0 "delete_db_cluster" [],
       Cmd.lookup "u1" 10,
       Cmd.remove "u1",
       Cmd.issue "u1" 20 "stop_db_instance" [],
       Cmd.issue "u2" 30 "reboot_db_instance" []] (by decide) (by decide)
  · exact (tokens_unique_under_fresh_generator.2 []
      [Cmd.issue "n1" 0 "op" [], Cmd.issue "n2" 1 "op" [],
       Cmd.issue "n3" 2 "op" []] (by decide) (by decide)).1
  · exact (tokens_unique_under_fresh_generator.2 []
      [Cmd.issue "n1" 0 "op" [], Cmd.issue "n2" 1 "op" [],
       Cmd.issue "n3" 2 "op" []] (by decide) (by decide)).2

/-!
Listing resources (resources/db_instance/list_instances.py and
resources/db_instance/list_db_logs.py).  Raw AWS records are embedded as
structures of optional fields matching the `.get` accesses the formatting
code performs; the RDS client is the external collaborator and is embedded
as the list of pages it yields, as for `handle_paginated_aws_api_call`.
-/

/-- One entry of a raw `TagList`: the `Key` and `Value` fields, either of
which may be missing. -/
structure RawTag where
  key : Option String
  value : Option String

/-- The fields of a raw `DBInstanceTypeDef` record read by
`InstanceSummary.from_DBInstanceTypeDef`. -/
structure RawInstance where
  dbInstanceIdentifier : Option String
  dbiResourceId : Option String
  dbInstanceStatus : Option String
  engine : Option String
  engineVersion : Option String
  dbInstanceClass : Option String
  availabilityZone : Option String
  multiAZ : Option Bool
  publiclyAccessible : Option Bool
  dbClusterIdentifier : Option String
  tagList : Option (List RawTag)

/-- The `InstanceSummary` model of list_instances.py (fields carry the
values the `from_DBInstanceTypeDef` constructor assigns). -/
structure InstanceSummary where
  instance_id : String
  dbi_resource_id : Option String
  status : String
  engine : String
  engine_version : String
  instance_class : String
  availability_zone : Option String
  multi_az : Bool
  publicly_accessible : Bool
  db_cluster : Option String
  tag_list : List (String × String)
  resource_uri : Option String

/-- Embedding of `InstanceSummary.from_DBInstanceTypeDef`
(list_instances.py, lines 51-80): builds the tag dict from entries having
both `Key` and `Value`, and reads each field with its default. -/
def InstanceSummary.from_DBInstanceTypeDef (inst : RawInstance) :
    InstanceSummary :=
  let tags :=
    (inst.tagList.getD []).foldl
      (fun acc t =>
        match t.key, t.value with
        | some k, some v => dictSet acc k v
        | _, _ => acc) []
  { instance_id := inst.dbInstanceIdentifier.getD ""
    dbi_resource_id := inst.dbiResourceId
    status := inst.dbInstanceStatus.getD ""
    engine := inst.engine.getD ""
    engine_version := inst.engineVersion.getD ""
    instance_class := inst.dbInstanceClass.getD ""
    availability_zone := inst.availabilityZone
    multi_az := inst.multiAZ.getD false
    publicly_accessible := inst.publiclyAccessible.getD false
    db_cluster := inst.dbClusterIdentifier
    tag_list := tags
    resource_uri := none }

/-- The `InstanceSummaryList` model of list_instances.py. -/
structure InstanceSummaryList where
  instances : List InstanceSummary
  count : Nat
  resource_uri : String

/-- Embedding of the `list_instances` resource (list_instances.py, lines
134-160): fetch all pages with result key `DBInstances`, format each record,
and wrap the list with its length as `count`. -/
def list_instances (pages : List (List (String × List RawInstance))) :
    InstanceSummaryList :=
  let instances := handle_paginated_aws_api_call pages
    InstanceSummary.from_DBInstanceTypeDef "DBInstances"
  { instances := instances
    count := instances.length
    resource_uri := "aws-rds://db-instance" }

/-- The fields of a raw `DescribeDBLogFiles` record read by
`DBLogFileSummary.from_DescribeDBLogFilesDetailsTypeDef`. -/
structure RawLogFile where
  logFileName : Option String
  lastWritten : Option Int
  size : Option Int

/-- The `DBLogFileSummary` model of list_db_logs.py; `last_written` holds
the POSIX timestamp in seconds obtained by dividing the raw millisecond
value by 1000 (`datetime.fromtimestamp`). -/
structure DBLogFileSummary where
  log_file_name : String
  last_written : Rat
  size : Int

/-- Embedding of `DBLogFileSummary.from_DescribeDBLogFilesDetailsTypeDef`
(list_db_logs.py, lines 81-98). -/
def DBLogFileSummary.from_DescribeDBLogFilesDetailsTypeDef
    (log_file : RawLogFile) : DBLogFileSummary :=
  { log_file_name := log_file.logFileName.getD ""
    last_written := ((log_file.lastWritten.getD 0 : Int) : Rat) / 1000
    size := log_file.size.getD 0 }

/-- The `DBLogFileList` model of list_db_logs.py. -/
structure DBLogFileList where
  log_files : List DBLogFileSummary
  count : Nat
  resource_uri : String

/-- Embedding of the `list_db_log_files` resource (list_db_logs.py, lines
120-152): fetch all pages with result key `DescribeDBLogFiles`, format each
record, and wrap the list with its length as `count`. -/
def list_db_log_files (db_instance_identifier : String)
    (pages : List (List (String × List RawLogFile))) : DBLogFileList :=
  let log_files := handle_paginated_aws_api_call pages
    DBLogFileSummary.from_DescribeDBLogFilesDetailsTypeDef
    "DescribeDBLogFiles"
  { log_files := log_files
    count := log_files.length
    resource_uri := "aws-rds://db-instance/\x7bdb_instance_identifier\x7d/log" }

/-- C9: every listing result keeps its count field consistent with its
items: `list_instances` returns an `InstanceSummaryList` whose `count`
equals the length of its `instances` list, and `list_db_log_files` returns
a `DBLogFileList` whose `count` equals the length of its `log_files` list,
for every backend page stream. -/
theorem listing_count_equals_length
    (ipages : List (List (String × List RawInstance)))
    (db_instance_identifier : String)
    (lpages : List (List (String × List RawLogFile))) :
    (list_instances ipages).count = (list_instances ipages).instances.length
    ∧ (list_db_log_files db_instance_identifier lpages).count
      = (list_db_log_files db_instance_identifier lpages).log_files.length :=
  ⟨rfl, rfl⟩

/-!
Performance-report tool (tools/db_instance/create_performance_report.py).
Datetimes are embedded as epoch seconds (`Int`); a `timedelta` of 5 minutes
is 300 seconds and one of 6 days is 518400 seconds.  The ISO parser
`_parse_iso_datetime` is a collaborator over strings, so each optional time
argument is embedded as its parse outcome (`none` for an absent/falsy
argument, `some (Except.ok t)` for a string parsing to `t`,
`some (Except.error e)` for a string failing to parse with message `e`);
the now-based defaults of `_get_default_time_range` are the explicit
`default_start`/`default_end` arguments, and the PI client collaborator is
embedded as the `AnalysisReportId` field of its response
(`analysis_report_id`).  A raised `ValueError` is `Except.error`.
-/

/-- `MIN_DURATION_MINUTES = 5` (create_performance_report.py, line 29). -/
def MIN_DURATION_MINUTES : Int := 5

/-- `MAX_DURATION_DAYS = 6` (create_performance_report.py, line 30). -/
def MAX_DURATION_DAYS : Int := 6

/-- Embedding of `_validate_time_range` (create_performance_report.py,
lines 151-168). -/
def _validate_time_range (start end_ : Int) : Except String Unit :=
  if start ≥ end_ then Except.error "start_time must be before end_time"
  else
    let duration := end_ - start
    if duration < MIN_DURATION_MINUTES * 60 then
      Except.error "Time range must be at least 5 minutes"
    else if duration > MAX_DURATION_DAYS * 86400 then
      Except.error "Time range cannot exceed 6 days"
    else Except.ok ()

/-- Embedding of `_parse_time_parameters` (create_performance_report.py,
lines 115-148): each given time argument must parse, else the
`ValueError` is re-raised with an `Invalid ..._time format` message;
missing arguments fall back to the defaults. -/
def _parse_time_parameters (default_start default_end : Int)
    (start_time end_time : Option (Except String Int)) :
    Except String (Int × Int) :=
  let startRes : Except String Int :=
    match start_time with
    | some (Except.ok v) => Except.ok v
    | some (Except.error e) =>
        Except.error ("Invalid start_time format: " ++ e)
    | none => Except.ok default_start
  let endRes : Except String Int :=
    match end_time with
    | some (Except.ok v) => Except.ok v
    | some (Except.error e) =>
        Except.error ("Invalid end_time format: " ++ e)
    | none => Except.ok default_end
  match startRes with
  | Except.error e => Except.error e
  | Except.ok s =>
    match endRes with
    | Except.error e => Except.error e
    | Except.ok e => Except.ok (s, e)

/-- Whether an `Except` result is an error (a raised `ValueError`). -/
def isErr {α : Type} : Except String α → Bool
  | Except.error _ => true
  | Except.ok _ => false

/-- Embedding of the `create_performance_report` tool
(create_performance_report.py, lines 173-225): readonly gate first, then
time parsing, then range validation, then the PI-client call whose
`AnalysisReportId` must be truthy. -/
def create_performance_report (readonly_mode : Bool)
    (default_start default_end : Int) (dbi_resource_identifier : String)
    (start_time end_time : Option (Except String Int))
    (analysis_report_id : Option String) : Except String String :=
  if readonly_mode then
    Except.error "You have configured this tool in readonly mode. To make this change you will have to update your configuration."
  else
    match _parse_time_parameters default_start default_end
        start_time end_time with
    | Except.error e => Except.error e
    | Except.ok (start, end_) =>
      match _validate_time_range start end_ with
      | Except.error e => Except.error e
      | Except.ok _ =>
        match analysis_report_id with
        | none =>
            Except.error "Failed to create performance report: No report ID returned"
        | some report_id =>
          if report_id = "" then
            Except.error "Failed to create performance report: No report ID returned"
          else
            Except.ok ("Performance analysis report creation has been initiated successfully. The report ID is: "
              ++ report_id ++ ". Access it via the aws-rds://db-instance/"
              ++ dbi_resource_identifier ++ "/performance_report resource.")

theorem validate_time_range_err (s e : Int)
    (h : e ≤ s ∨ e - s < 300 ∨ 518400 < e - s) :
    isErr (_validate_time_range s e) = true := by
  simp only [_validate_time_range, MIN_DURATION_MINUTES, MAX_DURATION_DAYS]
  split_ifs with h1 h2 h3
  · rfl
  · rfl
  · rfl
  · exfalso
    rcases h with h | h | h <;> omega

/-- C10: `create_performance_report` raises a `ValueError` without
consulting the report-creation collaborator whenever readonly mode is
enabled (checked before any time-parameter parsing or validation, so for
arbitrary — even unparseable — time arguments), or the parsed start time is
not strictly before the end time, or the duration is shorter than 5 minutes
(300 s) or longer than 6 days (518400 s). -/
theorem create_report_rejects_readonly_and_bad_ranges
    (default_start default_end : Int) (dbi_resource_identifier : String)
    (start_time end_time : Option (Except String Int))
    (analysis_report_id : Option String) :
    (create_performance_report true default_start default_end
        dbi_resource_identifier start_time end_time analysis_report_id
      = Except.error "You have configured this tool in readonly mode. To make this change you will have to update your configuration.")
    ∧ (∀ (readonly_mode : Bool) (s e : Int),
        _parse_time_parameters default_start default_end start_time end_time
          = Except.ok (s, e) →
        (e ≤ s ∨ e - s < 300 ∨ 518400 < e - s) →
        isErr (create_performance_report readonly_mode default_start
          default_end dbi_resource_identifier start_time end_time
          analysis_report_id) = true
        ∧ create_performance_report readonly_mode default_start default_end
            dbi_resource_identifier start_time end_time analysis_report_id
          = create_performance_report readonly_mode default_start default_end
              dbi_resource_identifier start_time end_time none) := by
  refine ⟨rfl, ?_⟩
  intro readonly_mode s e hp hbad
  cases readonly_mode with
  | true => exact ⟨rfl, rfl⟩
  | false =>
    have hverr := validate_time_range_err s e hbad
    rcases hv : _validate_time_range s e with msg | u
    · have hboth : ∀ rid2 : Option String,
          create_performance_report false default_start default_end
            dbi_resource_identifier start_time end_time rid2
          = Except.error msg := by
        intro rid2
        simp [create_performance_report, hp, hv]
      refine ⟨?_, by rw [hboth analysis_report_id, hboth none]⟩
      rw [hboth analysis_report_id]
      rfl
    · rw [hv] at hverr
      simp [isErr] at hverr

theorem create_report_rejects_witness :
    (create_performance_report true 0 600 "db-EXAMPLE" none none
        (some "report-1")
      = Except.error "You have configured this tool in readonly mode. To make this change you will have to update your configuration.")
    ∧ _parse_time_parameters 0 0 none none = Except.ok (0, 0)
    ∧ ((0 : Int) ≤ 0 ∨ (0 : Int) - 0 < 300 ∨ 518400 < (0 : Int) - 0)
    ∧ isErr (create_performance_report false 0 0 "db-EXAMPLE" none none
        (some "report-1")) = true
    ∧ create_performance_report false 0 0 "db-EXAMPLE" none none
        (some "report-1")
      = create_performance_report false 0 0 "db-EXAMPLE" none none none := by
  have h := create_report_rejects_readonly_and_bad_ranges 0 0 "db-EXAMPLE"
    none none (some "report-1")
  have h600 := create_report_rejects_readonly_and_bad_ranges 0 600
    "db-EXAMPLE" none none (some "report-1")
  have hbad := (h.2 false 0 0 rfl (Or.inl (by decide)))
  exact ⟨h600.1, rfl, Or.inl (by decide), hbad.1, hbad.2⟩
